import Mathlib

/-!
# The UVM regular-expression cache (`src/dpi/uvm_regex.cc`)

A shallow embedding of the class `uvm_re_cache` and of its three public
methods `re_match`, `glob_to_re` and `dump_cache`.

Modelling conventions.

* A C string (`const char *`, `std::string`) is a `List Char`; the null
  pointer is `none` of `Option CString`.  Reading a string at the index of
  its terminator gives the character NUL (`char_at`).
* `int len = strlen(..)` is the value of `to_int`, the conversion of a
  `size_t` to a 32-bit `int`; `size_t` is 64 bits wide.
* A call that reads a character outside its string (before the first
  character or after the terminator) has no defined result: the functions
  that read through an index return an `Option`, with `none` for such a
  read.
* `std::map<const string, regex_t*>` is the list of its entries in
  iteration order.  `map_get` and `map_set` walk that list with the
  comparator `str_lt` only, the way the tree search does; two keys are the
  same key when neither is less than the other.
* A `regex_t*` is `Option (regex_ptr H)`: `none` is `NULL`, and a non-null
  pointer carries the serial number of the `malloc` call that produced the
  block together with the block contents written by `regcomp`.  Blocks are
  never freed or rewritten by the code, so the serial number identifies the
  pointer.
* The POSIX engine (`regcomp` with `REG_EXTENDED`, `regexec`) lives in libc,
  not in the repository: it is the parameter `Engine`.
* Text written to `vpi_printf` and to `cout` is returned by the operation
  that writes it.
-/

namespace uvm_re_cache

/-- A C string, as the list of its characters before the terminator. -/
abbrev CString := List Char

/-- The constant `uvm_re_bracket_char`. -/
def uvm_re_bracket_char : Char := '/'

/-- The terminator of a C string. -/
def NUL : Char := Char.ofNat 0

/-- The read `s[i]` of a C string: the terminator is read at `i = strlen s`. -/
def char_at (s : CString) (i : Nat) : Char := s.getD i NUL

/-- The order `operator<` of `std::string`: compare the first differing
character (as unsigned bytes), a proper initial segment being smaller. -/
def str_lt : CString → CString → Bool
  | [], [] => false
  | [], _ :: _ => true
  | _ :: _, [] => false
  | a :: as, b :: bs =>
    if a.toNat < b.toNat then true
    else if b.toNat < a.toNat then false
    else str_lt as bs

/-! ## Glob translation -/

/-- The `switch (*p)` of `glob_to_re`: the text appended for one glob
character. -/
def glob_char (c : Char) : CString :=
  if c = '*' then ".*".toList
  else if c = '+' then ".+".toList
  else if c = '.' then "\\.".toList
  else if c = '?' then ['.']
  else if c = '[' then "\\[".toList
  else if c = ']' then "\\]".toList
  else if c = '(' then "\\(".toList
  else if c = ')' then "\\)".toList
  else [c]

/-- The loop `for (p = glob; *p; p++)` of `glob_to_re`, appending to
`temp_re`. -/
def glob_loop : CString → CString → CString
  | [], temp_re => temp_re
  | c :: p, temp_re => glob_loop p (temp_re ++ glob_char c)

/-- The conversion of a `size_t` to `int`, as in `int len = strlen(..)`:
the low 32 bits, read in two's complement. -/
def to_int (n : Nat) : Int :=
  if n % 4294967296 < 2147483648 then ((n % 4294967296 : Nat) : Int)
  else ((n % 4294967296 : Nat) : Int) - 4294967296

/-- The read `s[i]` of a `const char *` through an `int` index: defined from
the first character to the terminator. -/
def c_read (s : CString) (i : Int) : Option Char :=
  if 0 ≤ i ∧ i ≤ (s.length : Int) then some (char_at s i.toNat) else none

/-- The difference `a - b` of two `size_t` values (64 bits wide, so both are
below 2^64): below zero it wraps around. -/
def size_t_sub (a b : Nat) : Nat :=
  if b ≤ a then a - b else a + 18446744073709551616 - b

/-- The read `s[pos]` of a `std::string`: defined up to `pos = s.size()`. -/
def str_at (s : CString) (pos : Nat) : Option Char :=
  if pos ≤ s.length then some (char_at s pos) else none

/-- The constructor `string(s + off, n)`: the `n` characters from offset
`off` of a `const char *`, which must all lie in the string or on its
terminator. -/
def c_substr (s : CString) (off n : Int) : Option CString :=
  if 0 ≤ off ∧ 0 ≤ n ∧ off + n ≤ (s.length : Int) + 1 then
    some (((s ++ [NUL]).drop off.toNat).take n.toNat)
  else none

/-- The anchoring and bracketing statements of `glob_to_re` (after the
loop). -/
def glob_finish (temp_re : CString) : Option CString :=
  (str_at temp_re 0).bind fun first =>
    let t1 := if first ≠ '^' then '^' :: temp_re else temp_re
    (str_at t1 (size_t_sub t1.length 1)).bind fun last =>
      let t2 := if last ≠ '$' then t1 ++ ['$'] else t1
      let t3 := uvm_re_bracket_char :: t2
      some (t3 ++ [uvm_re_bracket_char])

/-- The method `glob_to_re`: `none` when a read is outside the glob,
otherwise the pointer returned (`some none` is `NULL`).  The tests are
evaluated left to right and stop at the first that decides, as `||` and
`&&` do. -/
def glob_to_re (glob : Option CString) : Option (Option CString) :=
  match glob with
  | none => some none
  | some g =>
    let len := to_int g.length
    let translated : Option (Option CString) :=
      (glob_finish (glob_loop g [])).map some
    let regex_or_glob : Option (Option CString) :=
      (c_read g 0).bind fun first =>
        if first = uvm_re_bracket_char then
          (c_read g (len - 1)).bind fun last =>
            if last = uvm_re_bracket_char then some (some g) else translated
        else translated
    if len = 0 then some (some [])
    else if len = 1 then
      (c_read g 0).bind fun first =>
        if first = uvm_re_bracket_char then some (some []) else regex_or_glob
    else regex_or_glob

/-! ## The cache -/

/-- The POSIX engine of libc: `regcomp(.., REG_EXTENDED)` gives its error
code and the contents it writes to the `regex_t` block; `regexec` runs a
block on a subject. -/
structure Engine (H : Type) where
  regcomp : CString → Int × H
  regexec : H → CString → Int

/-- A non-null `regex_t*`: the serial number of the `malloc` call that
returned it, and the block it points to. -/
structure regex_ptr (H : Type) where
  serial : Nat
  block : H
  deriving DecidableEq

/-- The type `re_cache_t`, as the entries of the map in iteration order;
the value `none` is the pointer `NULL`. -/
abbrev re_cache_t (H : Type) := List (CString × Option (regex_ptr H))

/-- The search `std::map::find`, by the comparator alone. -/
def map_get {H : Type} (k : CString) : re_cache_t H → Option (Option (regex_ptr H))
  | [] => none
  | (k1, v1) :: rest =>
    if str_lt k k1 then none
    else if str_lt k1 k then map_get k rest
    else some v1

/-- The assignment `m[k] = v`: the value of an existing key is replaced, a
new key is inserted at its place in the order. -/
def map_set {H : Type} (k : CString) (v : Option (regex_ptr H)) :
    re_cache_t H → re_cache_t H
  | [] => [(k, v)]
  | (k1, v1) :: rest =>
    if str_lt k k1 then (k, v) :: (k1, v1) :: rest
    else if str_lt k1 k then (k1, v1) :: map_set k v rest
    else (k1, v) :: rest

/-- The read `m[k]` of `std::map::operator[]`: a missing key is inserted
with the value-initialised pointer `NULL`, which is then the value read. -/
def map_index {H : Type} (m : re_cache_t H) (k : CString) :
    Option (regex_ptr H) × re_cache_t H :=
  match map_get k m with
  | some v => (v, m)
  | none => (none, map_set k none m)

/-- The state of the singleton: the member `cache`, and the number of
`regex_t` blocks allocated so far. -/
structure State (H : Type) where
  cache : re_cache_t H
  nalloc : Nat
  deriving DecidableEq

/-- The singleton as `get()` first creates it. -/
def init {H : Type} : State H := { cache := [], nalloc := 0 }

/-- The method `re_compile`: its return value and the state it leaves. -/
def re_compile {H : Type} (E : Engine H) (st : State H) (re_str : CString) :
    Int × State H :=
  let rexp : regex_ptr H := { serial := st.nalloc, block := (E.regcomp re_str).2 }
  let st1 : State H := { st with nalloc := st.nalloc + 1 }
  let err := (E.regcomp re_str).1
  if err ≠ 0 then (err, st1)
  else (0, { st1 with cache := map_set re_str (some rexp) st1.cache })

/-- The first statements of `re_match` (lines 107 to 113): the text `*re_str`
that is looked up, `none` when a read is outside the pattern. -/
def strip_text (re : CString) : Option CString :=
  let len := to_int re.length
  if len > 1 then
    (c_read re 0).bind fun first =>
      if first = uvm_re_bracket_char then
        (c_read re (len - 1)).bind fun last =>
          if last = uvm_re_bracket_char then c_substr re 1 (len - 2) else some re
      else some re
  else some re

/-- The text `re_match` looks up.  The reads of `strip_text` are never
outside the pattern (`strip_text_eq` below), so this is its value. -/
def strip (re : CString) : CString := (strip_text re).getD re

/-- The message of `re_match` on a failed compilation, as `vpi_printf`
formats it. -/
def compile_error_msg (re : CString) : CString :=
  "UVM_ERROR: regex compiler: invalid glob or regular expression: |".toList
    ++ re ++ "|\n".toList

/-- What one call of `re_match` does: its return value (`none` when
`regexec` would be handed `NULL`), the messages it prints with
`vpi_printf`, the texts it hands to `regcomp`, and the state it leaves. -/
structure MatchResult (H : Type) where
  ret : Option Int
  vpi : List CString
  compiled : List CString
  st : State H

/-- The call `regexec(rexp, str, 0, NULL, 0)`. -/
def regexec_at {H : Type} (E : Engine H) (rexp : Option (regex_ptr H))
    (str : CString) : Option Int :=
  match rexp with
  | none => none
  | some p => some (E.regexec p.block str)

/-- The method `re_match`. -/
def re_match {H : Type} (E : Engine H) (st : State H) (re str : CString) :
    MatchResult H :=
  let re_str := strip re
  let rexp := (map_index st.cache re_str).1
  let st1 : State H := { st with cache := (map_index st.cache re_str).2 }
  match rexp with
  | none =>
    let c := re_compile E st1 re_str
    if c.1 ≠ 0 then
      { ret := some c.1, vpi := [compile_error_msg re], compiled := [re_str],
        st := c.2 }
    else
      let rexp2 := (map_index c.2.cache re_str).1
      let st3 : State H := { c.2 with cache := (map_index c.2.cache re_str).2 }
      { ret := regexec_at E rexp2 str, vpi := [], compiled := [re_str], st := st3 }
  | some p =>
    { ret := regexec_at E (some p) str, vpi := [], compiled := [], st := st1 }

/-- The line `cout << idx << ": " << i->first << endl` of `dump_cache`. -/
def dump_line (idx : Nat) (key : CString) : CString :=
  (Nat.repr idx).toList ++ ": ".toList ++ key

/-- The loop of `dump_cache`: one line per entry, numbered from `idx`. -/
def dump_loop {H : Type} : re_cache_t H → Nat → List CString
  | [], _ => []
  | (k, _) :: rest, idx => dump_line idx k :: dump_loop rest (idx + 1)

/-- The method `dump_cache`: the lines it writes to `cout`, and the state it
leaves. -/
def dump_cache {H : Type} (st : State H) : List CString × State H :=
  (" -- re cache dump --".toList :: dump_loop st.cache 0 ++ [" -- end --".toList], st)

/-- A series of `re_match` calls, each given as (pattern, subject). -/
def run {H : Type} (E : Engine H) (st : State H) : List (CString × CString) → State H
  | [] => st
  | c :: rest => run E (re_match E st c.1 c.2).st rest

/-- One call of an entry point of the class. -/
inductive Call where
  | re_match (re str : CString)
  | glob_to_re (glob : Option CString)
  | dump_cache

/-- The state after one call of an entry point. -/
def step {H : Type} (E : Engine H) (st : State H) : Call → State H
  | Call.re_match re str => (uvm_re_cache.re_match E st re str).st
  | Call.glob_to_re _ => st
  | Call.dump_cache => (uvm_re_cache.dump_cache st).2

/-! ## A small engine for concrete runs

The theorems below hold for every engine.  To run the code on concrete
inputs an engine is needed; this one knows ordinary characters and the two
anchors, and rejects a text with a bracket or parenthesis character the way
libc rejects an unbalanced one. -/

/-- Whether `p` is an initial segment of `s`. -/
def starts_with : CString → CString → Bool
  | [], _ => true
  | _ :: _, [] => false
  | a :: p, b :: s => a = b && starts_with p s

/-- Whether `p` occurs in `s`; with `to_end`, whether it occurs as the final
segment. -/
def occurs (p : CString) (to_end : Bool) : CString → Bool
  | [] => p = []
  | b :: s =>
    (if to_end then p = b :: s else starts_with p (b :: s)) || occurs p to_end s

/-- The engine for concrete runs: a pattern compiles to its own text, and
fails with code 7 when it has a character among `[ ] ( )`. -/
def small_engine : Engine CString where
  regcomp := fun re =>
    if re.any (fun c => c = '[' || c = ']' || c = '(' || c = ')') then (7, [])
    else (0, re)
  regexec := fun block s =>
    let from_start := char_at block 0 = '^'
    let b1 := if from_start then block.drop 1 else block
    let to_end := b1.length > 0 ∧ char_at b1 (b1.length - 1) = '$'
    let b2 := if to_end then b1.take (b1.length - 1) else b1
    let hit :=
      if from_start then (if to_end then decide (b2 = s) else starts_with b2 s)
      else occurs b2 to_end s
    if hit then 0 else 1

/-! ## The translation as the specification words it -/

/-- The translation table of the specification: the glob characters that are
rewritten, each with its output. -/
def spec_table : List (Char × CString) :=
  [('*', ".*".toList), ('+', ".+".toList), ('.', "\\.".toList), ('?', ".".toList),
   ('[', "\\[".toList), (']', "\\]".toList), ('(', "\\(".toList), (')', "\\)".toList)]

/-- The text `T` of the specification: the outputs of the characters of the
glob, concatenated; a character outside the table is copied. -/
def spec_T (g : CString) : CString :=
  (g.map (fun c => (spec_table.lookup c).getD [c])).flatten

/-- The text `A` of the specification: `T` with `^` before it unless `T`
starts with `^`, and `$` after it unless `T` ends with `$`. -/
def spec_A (T : CString) : CString :=
  (if T.head? = some '^' then [] else ['^']) ++ T
    ++ (if T.getLast? = some '$' then [] else ['$'])


/-! ## The order on strings -/

theorem char_toNat_inj {a b : Char} (h : a.toNat = b.toNat) : a = b := by
  apply Char.ext
  apply UInt32.ext
  exact h

theorem str_lt_irrefl (a : CString) : str_lt a a = false := by
  induction a with
  | nil => rfl
  | cons c s ih => simp [str_lt, ih]

theorem str_lt_trans {a b c : CString} (hab : str_lt a b = true)
    (hbc : str_lt b c = true) : str_lt a c = true := by
  induction a generalizing b c with
  | nil =>
    cases b with
    | nil => simp [str_lt] at hab
    | cons y b =>
      cases c with
      | nil => simp [str_lt] at hbc
      | cons z c => rfl
  | cons x a ih =>
    cases b with
    | nil => simp [str_lt] at hab
    | cons y b =>
      cases c with
      | nil => simp [str_lt] at hbc
      | cons z c =>
        simp only [str_lt] at hab hbc ⊢
        by_cases h1 : x.toNat < y.toNat
        · by_cases h2 : y.toNat < z.toNat
          · have : x.toNat < z.toNat := by omega
            simp [this]
          · simp only [h2, if_false] at hbc
            by_cases h3 : z.toNat < y.toNat
            · simp [h3] at hbc
            · have : x.toNat < z.toNat := by omega
              simp [this]
        · simp only [h1, if_false] at hab
          by_cases h1b : y.toNat < x.toNat
          · simp [h1b] at hab
          · simp only [h1b, if_false] at hab
            have hxy : x.toNat = y.toNat := by omega
            by_cases h2 : y.toNat < z.toNat
            · have : x.toNat < z.toNat := by omega
              simp [this]
            · simp only [h2, if_false] at hbc
              by_cases h3 : z.toNat < y.toNat
              · simp [h3] at hbc
              · simp only [h3, if_false] at hbc
                have e1 : ¬ x.toNat < z.toNat := by omega
                have e2 : ¬ z.toNat < x.toNat := by omega
                simp only [e1, e2, if_false]
                exact ih hab hbc

theorem str_lt_eq_of_not {a b : CString} (hab : str_lt a b = false)
    (hba : str_lt b a = false) : a = b := by
  induction a generalizing b with
  | nil =>
    cases b with
    | nil => rfl
    | cons y b => simp [str_lt] at hab
  | cons x a ih =>
    cases b with
    | nil => simp [str_lt] at hba
    | cons y b =>
      simp only [str_lt] at hab hba
      by_cases h1 : x.toNat < y.toNat
      · simp [h1] at hab
      · by_cases h2 : y.toNat < x.toNat
        · simp [h2] at hba
        · simp only [h1, h2, if_false] at hab hba
          have hxy : x = y := char_toNat_inj (by omega)
          rw [hxy, ih hab hba]

theorem str_lt_asymm {a b : CString} (hab : str_lt a b = true) : str_lt b a = false := by
  cases h : str_lt b a with
  | false => rfl
  | true =>
    have := str_lt_trans hab h
    rw [str_lt_irrefl] at this
    exact absurd this (by decide)

/-! ## The map -/

theorem map_get_set_same {H : Type} (k : CString) (v : Option (regex_ptr H))
    (m : re_cache_t H) : map_get k (map_set k v m) = some v := by
  induction m with
  | nil => simp [map_set, map_get, str_lt_irrefl]
  | cons e rest ih =>
    obtain ⟨k1, v1⟩ := e
    simp only [map_set]
    by_cases h1 : str_lt k k1 = true
    · simp [h1, map_get, str_lt_irrefl]
    · by_cases h2 : str_lt k1 k = true
      · simp [h1, h2, map_get, ih]
      · simp [h1, h2, map_get]

theorem map_get_set_other {H : Type} (k k2 : CString) (v : Option (regex_ptr H))
    (m : re_cache_t H) (hne : k2 ≠ k) : map_get k2 (map_set k v m) = map_get k2 m := by
  have hcmp : str_lt k2 k = true ∨ str_lt k k2 = true := by
    by_cases a : str_lt k2 k = true
    · exact Or.inl a
    · by_cases b : str_lt k k2 = true
      · exact Or.inr b
      · exact absurd (str_lt_eq_of_not (by simpa using a) (by simpa using b)) hne
  induction m with
  | nil =>
    rcases hcmp with a | b
    · simp [map_set, map_get, a]
    · simp [map_set, map_get, b, str_lt_asymm b]
  | cons e rest ih =>
    obtain ⟨k1, v1⟩ := e
    simp only [map_set]
    by_cases h1 : str_lt k k1 = true
    · simp only [h1, if_true]
      rcases hcmp with a | b
      · have : str_lt k2 k1 = true := str_lt_trans a h1
        simp [map_get, a, this]
      · simp [map_get, b, str_lt_asymm b]
    · by_cases h2 : str_lt k1 k = true
      · simp [h1, h2, map_get, ih]
      · have hk : k = k1 := str_lt_eq_of_not (by simpa using h1) (by simpa using h2)
        subst hk
        simp only [h1, Bool.false_eq_true, if_false]
        rcases hcmp with a | b
        · simp [map_get, a]
        · simp [map_get, b, str_lt_asymm b]

theorem map_get_some_mem {H : Type} (k : CString) (m : re_cache_t H)
    (v : Option (regex_ptr H)) (h : map_get k m = some v) : k ∈ m.map Prod.fst := by
  induction m with
  | nil => simp [map_get] at h
  | cons e rest ih =>
    obtain ⟨k1, v1⟩ := e
    simp only [map_get] at h
    by_cases h1 : str_lt k k1 = true
    · simp [h1] at h
    · by_cases h2 : str_lt k1 k = true
      · simp only [h1, h2, if_true, if_false] at h
        simp [ih h]
      · have hk : k = k1 := str_lt_eq_of_not (by simpa using h1) (by simpa using h2)
        simp [hk]

theorem mem_keys_map_set {H : Type} (k x : CString) (v : Option (regex_ptr H))
    (m : re_cache_t H) :
    x ∈ (map_set k v m).map Prod.fst ↔ x = k ∨ x ∈ m.map Prod.fst := by
  induction m with
  | nil => simp [map_set]
  | cons e rest ih =>
    obtain ⟨k1, v1⟩ := e
    simp only [map_set]
    by_cases h1 : str_lt k k1 = true
    · simp [h1]
    · by_cases h2 : str_lt k1 k = true
      · simp only [h1, h2, Bool.false_eq_true, if_true, if_false, List.map_cons,
          List.mem_cons, ih]
        tauto
      · have hk : k = k1 := str_lt_eq_of_not (by simpa using h1) (by simpa using h2)
        subst hk
        simp [h1]

theorem sorted_map_set {H : Type} (k : CString) (v : Option (regex_ptr H))
    (m : re_cache_t H)
    (hs : (m.map Prod.fst).Pairwise (fun a b => str_lt a b = true)) :
    ((map_set k v m).map Prod.fst).Pairwise (fun a b => str_lt a b = true) := by
  induction m with
  | nil => simp [map_set]
  | cons e rest ih =>
    obtain ⟨k1, v1⟩ := e
    simp only [List.map_cons, List.pairwise_cons] at hs
    simp only [map_set]
    by_cases h1 : str_lt k k1 = true
    · simp only [h1, if_true, List.map_cons, List.pairwise_cons]
      refine ⟨?_, hs.1, hs.2⟩
      intro y hy
      rcases List.mem_cons.mp hy with rfl | hy
      · exact h1
      · exact str_lt_trans h1 (hs.1 y hy)
    · by_cases h2 : str_lt k1 k = true
      · simp only [h1, h2, Bool.false_eq_true, if_true, if_false, List.map_cons,
          List.pairwise_cons]
        refine ⟨?_, ih hs.2⟩
        intro y hy
        rcases (mem_keys_map_set k y v rest).mp hy with rfl | hy
        · exact h2
        · exact hs.1 y hy
      · simp only [h1, h2, Bool.false_eq_true, if_false, List.map_cons,
          List.pairwise_cons]
        exact hs

theorem mem_keys_map_index {H : Type} (k x : CString) (m : re_cache_t H) :
    x ∈ (map_index m k).2.map Prod.fst ↔ x = k ∨ x ∈ m.map Prod.fst := by
  unfold map_index
  cases h : map_get k m with
  | none => exact mem_keys_map_set k x none m
  | some v =>
    have := map_get_some_mem k m v h
    constructor
    · exact Or.inr
    · rintro (rfl | h2)
      · exact this
      · exact h2

theorem sorted_map_index {H : Type} (k : CString) (m : re_cache_t H)
    (hs : (m.map Prod.fst).Pairwise (fun a b => str_lt a b = true)) :
    ((map_index m k).2.map Prod.fst).Pairwise (fun a b => str_lt a b = true) := by
  unfold map_index
  cases h : map_get k m with
  | none => exact sorted_map_set k none m hs
  | some v => exact hs

theorem map_get_index_other {H : Type} (k k2 : CString) (m : re_cache_t H)
    (hne : k2 ≠ k) : map_get k2 (map_index m k).2 = map_get k2 m := by
  unfold map_index
  cases h : map_get k m with
  | none => exact map_get_set_other k k2 none m hne
  | some v => rfl

theorem map_get_index_same {H : Type} (k : CString) (m : re_cache_t H) :
    map_get k (map_index m k).2 = some (map_index m k).1 := by
  unfold map_index
  cases h : map_get k m with
  | none => exact map_get_set_same k none m
  | some v => exact h

/-! ## One call of `re_match` -/

theorem map_index_fst_some {H : Type} (k : CString) (m : re_cache_t H) (p : regex_ptr H)
    (h : (map_index m k).1 = some p) : map_get k m = some (some p) := by
  unfold map_index at h
  cases hg : map_get k m with
  | none => simp [hg] at h
  | some v => simp [hg] at h; rw [h]

theorem map_index_of_get {H : Type} (k : CString) (m : re_cache_t H)
    (v : Option (regex_ptr H)) (h : map_get k m = some v) : map_index m k = (v, m) := by
  unfold map_index
  rw [h]

theorem re_match_hit {H : Type} (E : Engine H) (st : State H) (re str : CString)
    (p : regex_ptr H) (h : map_get (strip re) st.cache = some (some p)) :
    re_match E st re str
      = { ret := some (E.regexec p.block str), vpi := [], compiled := [], st := st } := by
  unfold re_match
  simp only [map_index_of_get _ _ _ h, regexec_at]

theorem re_match_miss_fail {H : Type} (E : Engine H) (st : State H) (re str : CString)
    (h : (map_index st.cache (strip re)).1 = none) (hf : (E.regcomp (strip re)).1 ≠ 0) :
    re_match E st re str
      = { ret := some (E.regcomp (strip re)).1, vpi := [compile_error_msg re],
          compiled := [strip re],
          st := { cache := (map_index st.cache (strip re)).2, nalloc := st.nalloc + 1 } } := by
  unfold re_match
  simp only [h, re_compile, hf, ne_eq, not_false_eq_true, if_true]

theorem re_match_miss_ok {H : Type} (E : Engine H) (st : State H) (re str : CString)
    (h : (map_index st.cache (strip re)).1 = none) (hok : (E.regcomp (strip re)).1 = 0) :
    re_match E st re str
      = { ret := some (E.regexec (E.regcomp (strip re)).2 str), vpi := [],
          compiled := [strip re],
          st := { cache := map_set (strip re)
                    (some { serial := st.nalloc, block := (E.regcomp (strip re)).2 })
                    (map_index st.cache (strip re)).2,
                  nalloc := st.nalloc + 1 } } := by
  unfold re_match
  simp only [h, re_compile, hok, ne_eq, not_true_eq_false, if_false]
  rw [map_index_of_get _ _ _ (map_get_set_same _ _ _)]
  simp only [regexec_at]

theorem re_match_get_other {H : Type} (E : Engine H) (st : State H) (re str k : CString)
    (hne : k ≠ strip re) :
    map_get k (re_match E st re str).st.cache = map_get k st.cache := by
  cases h : (map_index st.cache (strip re)).1 with
  | some p => rw [re_match_hit E st re str p (map_index_fst_some _ _ _ h)]
  | none =>
    by_cases hc : (E.regcomp (strip re)).1 = 0
    · rw [re_match_miss_ok E st re str h hc]
      simp only []
      rw [map_get_set_other _ _ _ _ hne, map_get_index_other _ _ _ hne]
    · rw [re_match_miss_fail E st re str h hc]
      simp only []
      rw [map_get_index_other _ _ _ hne]

theorem re_match_keep {H : Type} (E : Engine H) (st : State H) (re str k : CString)
    (p : regex_ptr H) (h : map_get k st.cache = some (some p)) :
    map_get k (re_match E st re str).st.cache = some (some p) := by
  by_cases hk : k = strip re
  · subst hk
    rw [re_match_hit E st re str p h]
    exact h
  · rw [re_match_get_other E st re str k hk]
    exact h

theorem re_match_get_same_ok {H : Type} (E : Engine H) (st : State H) (re str : CString)
    (hok : (E.regcomp (strip re)).1 = 0) :
    ∃ p, map_get (strip re) (re_match E st re str).st.cache = some (some p) := by
  cases h : (map_index st.cache (strip re)).1 with
  | some p =>
    rw [re_match_hit E st re str p (map_index_fst_some _ _ _ h)]
    exact ⟨p, map_index_fst_some _ _ _ h⟩
  | none =>
    rw [re_match_miss_ok E st re str h hok]
    exact ⟨_, map_get_set_same _ _ _⟩

theorem re_match_keys {H : Type} (E : Engine H) (st : State H) (re str x : CString) :
    x ∈ (re_match E st re str).st.cache.map Prod.fst
      ↔ x = strip re ∨ x ∈ st.cache.map Prod.fst := by
  cases h : (map_index st.cache (strip re)).1 with
  | some p =>
    have hg := map_index_fst_some _ _ _ h
    rw [re_match_hit E st re str p hg]
    have := map_get_some_mem _ _ _ hg
    constructor
    · exact Or.inr
    · rintro (rfl | h2)
      · exact this
      · exact h2
  | none =>
    by_cases hc : (E.regcomp (strip re)).1 = 0
    · rw [re_match_miss_ok E st re str h hc]
      simp only []
      rw [mem_keys_map_set, mem_keys_map_index]
      tauto
    · rw [re_match_miss_fail E st re str h hc]
      simp only []
      rw [mem_keys_map_index]

theorem re_match_sorted {H : Type} (E : Engine H) (st : State H) (re str : CString)
    (hs : (st.cache.map Prod.fst).Pairwise (fun a b => str_lt a b = true)) :
    ((re_match E st re str).st.cache.map Prod.fst).Pairwise
      (fun a b => str_lt a b = true) := by
  cases h : (map_index st.cache (strip re)).1 with
  | some p =>
    rw [re_match_hit E st re str p (map_index_fst_some _ _ _ h)]
    exact hs
  | none =>
    by_cases hc : (E.regcomp (strip re)).1 = 0
    · rw [re_match_miss_ok E st re str h hc]
      exact sorted_map_set _ _ _ (sorted_map_index _ _ hs)
    · rw [re_match_miss_fail E st re str h hc]
      exact sorted_map_index _ _ hs

theorem re_match_compiled_ok {H : Type} (E : Engine H) (st : State H) (re str : CString)
    (hinv : ∀ k p, map_get k st.cache = some (some p) → (E.regcomp k).1 = 0) :
    ∀ k p, map_get k (re_match E st re str).st.cache = some (some p)
      → (E.regcomp k).1 = 0 := by
  intro k p hk
  by_cases hkt : k = strip re
  · subst hkt
    by_cases hc : (E.regcomp (strip re)).1 = 0
    · exact hc
    · cases h : (map_index st.cache (strip re)).1 with
      | some q => exact hinv _ q (map_index_fst_some _ _ _ h)
      | none =>
        rw [re_match_miss_fail E st re str h hc] at hk
        simp only [] at hk
        rw [map_get_index_same, h] at hk
        simp at hk
  · rw [re_match_get_other E st re str k hkt] at hk
    exact hinv k p hk

/-! ## A series of calls -/

theorem run_keep {H : Type} (E : Engine H) (calls : List (CString × CString))
    (st : State H) (k : CString) (p : regex_ptr H)
    (h : map_get k st.cache = some (some p)) :
    map_get k (run E st calls).cache = some (some p) := by
  induction calls generalizing st with
  | nil => exact h
  | cons c rest ih => exact ih _ (re_match_keep E st c.1 c.2 k p h)

theorem run_compiled_ok {H : Type} (E : Engine H) (calls : List (CString × CString))
    (st : State H)
    (hinv : ∀ k p, map_get k st.cache = some (some p) → (E.regcomp k).1 = 0) :
    ∀ k p, map_get k (run E st calls).cache = some (some p) → (E.regcomp k).1 = 0 := by
  induction calls generalizing st with
  | nil => exact hinv
  | cons c rest ih => exact ih _ (re_match_compiled_ok E st c.1 c.2 hinv)

theorem run_keys {H : Type} (E : Engine H) (calls : List (CString × CString))
    (st : State H) (x : CString) :
    x ∈ (run E st calls).cache.map Prod.fst
      ↔ x ∈ st.cache.map Prod.fst ∨ ∃ c ∈ calls, strip c.1 = x := by
  induction calls generalizing st with
  | nil => simp [run]
  | cons c rest ih =>
    rw [run, ih, re_match_keys]
    simp only [List.mem_cons, exists_eq_or_imp]
    constructor
    · rintro ((h | h) | h)
      · exact Or.inr (Or.inl h.symm)
      · exact Or.inl h
      · exact Or.inr (Or.inr h)
    · rintro (h | h | h)
      · exact Or.inl (Or.inr h)
      · exact Or.inl (Or.inl h.symm)
      · exact Or.inr h

theorem run_sorted {H : Type} (E : Engine H) (calls : List (CString × CString))
    (st : State H)
    (hs : (st.cache.map Prod.fst).Pairwise (fun a b => str_lt a b = true)) :
    ((run E st calls).cache.map Prod.fst).Pairwise (fun a b => str_lt a b = true) := by
  induction calls generalizing st with
  | nil => exact hs
  | cons c rest ih => exact ih _ (re_match_sorted E st c.1 c.2 hs)

theorem run_all_compiled {H : Type} (E : Engine H) (calls : List (CString × CString))
    (st : State H) (hok : ∀ c ∈ calls, (E.regcomp (strip c.1)).1 = 0)
    (hst : ∀ k ∈ st.cache.map Prod.fst, ∃ p, map_get k st.cache = some (some p)) :
    ∀ k ∈ (run E st calls).cache.map Prod.fst,
      ∃ p, map_get k (run E st calls).cache = some (some p) := by
  induction calls generalizing st with
  | nil => exact hst
  | cons c rest ih =>
    apply ih _ (fun d hd => hok d (List.mem_cons_of_mem _ hd))
    intro k hk
    by_cases hkt : k = strip c.1
    · subst hkt
      exact re_match_get_same_ok E st c.1 c.2 (hok c (List.mem_cons_self _ _))
    · rcases (re_match_keys E st c.1 c.2 k).mp hk with h | h
      · exact absurd h hkt
      · obtain ⟨p, hp⟩ := hst k h
        exact ⟨p, re_match_keep E st c.1 c.2 k p hp⟩

theorem dump_loop_eq {H : Type} (m : re_cache_t H) (idx : Nat) :
    dump_loop m idx
      = ((m.map Prod.fst).enumFrom idx).map (fun e => dump_line e.1 e.2) := by
  induction m generalizing idx with
  | nil => rfl
  | cons e rest ih =>
    obtain ⟨k, v⟩ := e
    simp [dump_loop, ih, List.enumFrom]

/-! ## Stripping -/

theorem re_match_congr {H : Type} (E : Engine H) (st : State H) (re1 re2 str : CString)
    (h : strip re1 = strip re2) :
    (re_match E st re1 str).ret = (re_match E st re2 str).ret
      ∧ (re_match E st re1 str).compiled = (re_match E st re2 str).compiled
      ∧ (re_match E st re1 str).st = (re_match E st re2 str).st := by
  cases hm : (map_index st.cache (strip re1)).1 with
  | some p =>
    have hg := map_index_fst_some _ _ _ hm
    rw [re_match_hit E st re1 str p hg, re_match_hit E st re2 str p (h ▸ hg)]
    exact ⟨rfl, rfl, rfl⟩
  | none =>
    by_cases hc : (E.regcomp (strip re1)).1 = 0
    · rw [re_match_miss_ok E st re1 str hm hc,
        re_match_miss_ok E st re2 str (h ▸ hm) (h ▸ hc), h]
      exact ⟨rfl, rfl, rfl⟩
    · rw [re_match_miss_fail E st re1 str hm hc,
        re_match_miss_fail E st re2 str (h ▸ hm) (h ▸ hc), h]
      exact ⟨rfl, rfl, rfl⟩

theorem re_match_ret_some {H : Type} (E : Engine H) (st : State H) (re str : CString) :
    ∃ r, (re_match E st re str).ret = some r := by
  cases hm : (map_index st.cache (strip re)).1 with
  | some p =>
    rw [re_match_hit E st re str p (map_index_fst_some _ _ _ hm)]
    exact ⟨_, rfl⟩
  | none =>
    by_cases hc : (E.regcomp (strip re)).1 = 0
    · rw [re_match_miss_ok E st re str hm hc]
      exact ⟨_, rfl⟩
    · rw [re_match_miss_fail E st re str hm hc]
      exact ⟨_, rfl⟩

theorem map_index_fst_none_of_failing {H : Type} (E : Engine H) (st : State H)
    (t : CString)
    (hinv : ∀ k p, map_get k st.cache = some (some p) → (E.regcomp k).1 = 0)
    (hfail : (E.regcomp t).1 ≠ 0) : (map_index st.cache t).1 = none := by
  cases h : (map_index st.cache t).1 with
  | none => rfl
  | some p => exact absurd (hinv t p (map_index_fst_some _ _ _ h)) hfail

/-! ## The claims on the cache -/

/-- C3 (what the code does): when the text to compile is not yet a key of the
cache and its compilation fails, the call leaves that text in the cache as a
new key, with the null pointer as its value. -/
theorem C3_failed_compile_leaves_key {H : Type} (E : Engine H) (st : State H)
    (re str : CString) (hfail : (E.regcomp (strip re)).1 ≠ 0)
    (habs : strip re ∉ st.cache.map Prod.fst) :
    strip re ∈ (re_match E st re str).st.cache.map Prod.fst
      ∧ map_get (strip re) (re_match E st re str).st.cache = some none
      ∧ (re_match E st re str).st.cache = map_set (strip re) none st.cache := by
  have hget : map_get (strip re) st.cache = none := by
    cases h : map_get (strip re) st.cache with
    | none => rfl
    | some v => exact absurd (map_get_some_mem _ _ _ h) habs
  have hidx : map_index st.cache (strip re) = (none, map_set (strip re) none st.cache) := by
    unfold map_index
    rw [hget]
  have hm : (map_index st.cache (strip re)).1 = none := by rw [hidx]
  rw [re_match_miss_fail E st re str hm hfail]
  simp only [hidx]
  exact ⟨(mem_keys_map_set _ _ _ _).mpr (Or.inl rfl), map_get_set_same _ _ _, trivial⟩

/-- Witness of C3: from the empty cache, a match against the pattern
`[invalid(` fails to compile, and the dump then lists that pattern. -/
theorem C3_failed_compile_leaves_key_witness :
    (init : State CString).cache.map Prod.fst = []
      ∧ (small_engine.regcomp (strip "[invalid(".toList)).1 ≠ 0
      ∧ (re_match small_engine init "[invalid(".toList "anything".toList).st.cache.map Prod.fst
          = ["[invalid(".toList]
      ∧ (dump_cache
          (re_match small_engine init "[invalid(".toList "anything".toList).st).1
          = [" -- re cache dump --".toList, "0: [invalid(".toList, " -- end --".toList] := by
  have h := C3_failed_compile_leaves_key small_engine init "[invalid(".toList
    "anything".toList (by decide) (by decide)
  refine ⟨rfl, by decide, ?_, ?_⟩
  · rw [h.2.2]; decide
  · unfold dump_cache
    rw [h.2.2]; decide

/-- C4: once a call of a series that starts from the empty cache has handed a
text to the compiler and the compiler has accepted it, a later call whose
pattern strips to the same text hands nothing to the compiler: it finds the
pointer stored by the compiling call, runs it, and leaves the state as it
is. -/
theorem C4_compiled_at_most_once {H : Type} (E : Engine H)
    (before between : List (CString × CString)) (re str re2 str2 : CString)
    (hcomp : (re_match E (run E init before) re str).compiled = [strip re])
    (hok : (E.regcomp (strip re)).1 = 0)
    (hsame : strip re2 = strip re) :
    map_get (strip re) (re_match E (run E init before) re str).st.cache
        = some (some { serial := (run E init before).nalloc,
                       block := (E.regcomp (strip re)).2 })
      ∧ map_get (strip re)
          (run E (re_match E (run E init before) re str).st between).cache
        = some (some { serial := (run E init before).nalloc,
                       block := (E.regcomp (strip re)).2 })
      ∧ (re_match E (run E (re_match E (run E init before) re str).st between)
          re2 str2).compiled = []
      ∧ (re_match E (run E (re_match E (run E init before) re str).st between)
          re2 str2).ret = some (E.regexec (E.regcomp (strip re)).2 str2)
      ∧ (re_match E (run E (re_match E (run E init before) re str).st between)
          re2 str2).st
        = run E (re_match E (run E init before) re str).st between := by
  have hm : (map_index (run E init before).cache (strip re)).1 = none := by
    cases h : (map_index (run E init before).cache (strip re)).1 with
    | none => rfl
    | some p =>
      rw [re_match_hit E _ re str p (map_index_fst_some _ _ _ h)] at hcomp
      simp at hcomp
  have h1 : map_get (strip re) (re_match E (run E init before) re str).st.cache
      = some (some { serial := (run E init before).nalloc,
                     block := (E.regcomp (strip re)).2 }) := by
    rw [re_match_miss_ok E _ re str hm hok]
    exact map_get_set_same _ _ _
  have h2 := run_keep E between _ _ _ h1
  have h3 := h2
  rw [← hsame] at h3
  rw [re_match_hit E _ re2 str2 _ h3]
  simp only [hsame]
  exact ⟨h1, h2, trivial, trivial, trivial⟩

/-- Witness of C4: `/x/` is compiled by the first call, `/y/` is matched in
between, and the later match against `x` compiles nothing. -/
theorem C4_compiled_at_most_once_witness :
    (re_match small_engine
        (run small_engine (re_match small_engine init "/x/".toList "x".toList).st
          [("/y/".toList, "a".toList)])
        "x".toList "xx".toList).compiled = []
      ∧ (re_match small_engine
        (run small_engine (re_match small_engine init "/x/".toList "x".toList).st
          [("/y/".toList, "a".toList)])
        "x".toList "xx".toList).ret = some 0 :=
  have h := C4_compiled_at_most_once small_engine [] [("/y/".toList, "a".toList)]
    "/x/".toList "x".toList "x".toList "xx".toList (by decide) (by decide) (by decide)
  ⟨h.2.2.1, h.2.2.2.1⟩

/-- C6: in every state reached from the empty cache by a series of calls, a
call whose stripped text fails to compile hands that text to the compiler,
returns the compiler's nonzero code, and prints one message, which holds the
pattern as it was given between two bars. -/
theorem C6_compile_failure_reported {H : Type} (E : Engine H)
    (calls : List (CString × CString)) (re str : CString)
    (hfail : (E.regcomp (strip re)).1 ≠ 0) :
    (re_match E (run E init calls) re str).compiled = [strip re]
      ∧ (∃ err : Int, (re_match E (run E init calls) re str).ret = some err ∧ err ≠ 0)
      ∧ (re_match E (run E init calls) re str).vpi = [compile_error_msg re]
      ∧ ("regex compiler: invalid glob or regular expression: |".toList ++ re
          ++ "|".toList) <:+: compile_error_msg re := by
  have hinv := run_compiled_ok E calls init (by intro k p h; simp [init, map_get] at h)
  have hm := map_index_fst_none_of_failing E (run E init calls) (strip re) hinv hfail
  rw [re_match_miss_fail E _ re str hm hfail]
  refine ⟨rfl, ⟨_, rfl, hfail⟩, rfl, ?_⟩
  refine ⟨"UVM_ERROR: ".toList, "\n".toList, ?_⟩
  have e1 : "UVM_ERROR: regex compiler: invalid glob or regular expression: |".toList
      = "UVM_ERROR: ".toList
        ++ "regex compiler: invalid glob or regular expression: |".toList := by decide
  have e2 : "|\n".toList = "|".toList ++ "\n".toList := by decide
  rw [compile_error_msg, e1, e2]
  simp only [List.append_assoc]

/-- Witness of C6: the pattern `[invalid(` of the claim, matched a second
time after a first failed match. -/
theorem C6_compile_failure_reported_witness :
    (re_match small_engine
        (run small_engine init [("[invalid(".toList, "anything".toList)])
        "[invalid(".toList "anything".toList).compiled = ["[invalid(".toList]
      ∧ (re_match small_engine
        (run small_engine init [("[invalid(".toList, "anything".toList)])
        "[invalid(".toList "anything".toList).vpi
        = ["UVM_ERROR: regex compiler: invalid glob or regular expression: |[invalid(|\n".toList] :=
  have h := C6_compile_failure_reported small_engine
    [("[invalid(".toList, "anything".toList)] "[invalid(".toList "anything".toList
    (by decide)
  ⟨h.1, h.2.2.1⟩

/-- C7: after a series of calls from the empty cache whose texts all compile,
the dump is the header, one line per key of the cache numbered from 0 in the
order of the keys, and the footer; the keys are in strictly ascending order
(so none is repeated), they are exactly the stripped texts of the calls, each
has a compiled pointer, and the dump leaves the state as it is. -/
theorem C7_dump_lists_each_text_once {H : Type} (E : Engine H)
    (calls : List (CString × CString))
    (hok : ∀ c ∈ calls, (E.regcomp (strip c.1)).1 = 0) :
    (dump_cache (run E init calls)).1
        = " -- re cache dump --".toList
          :: (((run E init calls).cache.map Prod.fst).enum.map
                (fun e => dump_line e.1 e.2))
          ++ [" -- end --".toList]
      ∧ ((run E init calls).cache.map Prod.fst).Pairwise (fun a b => str_lt a b = true)
      ∧ ((run E init calls).cache.map Prod.fst).Nodup
      ∧ (∀ t, t ∈ (run E init calls).cache.map Prod.fst ↔ ∃ c ∈ calls, strip c.1 = t)
      ∧ (∀ t ∈ (run E init calls).cache.map Prod.fst,
          ∃ p, map_get t (run E init calls).cache = some (some p))
      ∧ (dump_cache (run E init calls)).2 = run E init calls := by
  have hs := run_sorted E calls init (by simp [init])
  refine ⟨?_, hs, ?_, ?_, ?_, rfl⟩
  · simp only [dump_cache, dump_loop_eq, List.enum]
  · refine hs.imp ?_
    intro a b hab hEq
    rw [hEq, str_lt_irrefl] at hab
    exact absurd hab (by decide)
  · intro t
    rw [run_keys]
    simp [init]
  · exact run_all_compiled E calls init hok (by simp [init])

/-- Witness of C7: matching `/x/`, then `/y/`, then `/x/` again lists `0: x`
and `1: y`. -/
theorem C7_dump_lists_each_text_once_witness :
    (dump_cache (run small_engine init
        [("/x/".toList, "a".toList), ("/y/".toList, "b".toList),
         ("/x/".toList, "c".toList)])).1
      = [" -- re cache dump --".toList, "0: x".toList, "1: y".toList,
         " -- end --".toList] := by
  have h := C7_dump_lists_each_text_once small_engine
    [("/x/".toList, "a".toList), ("/y/".toList, "b".toList), ("/x/".toList, "c".toList)]
    (by decide)
  rw [h.1]
  decide

/-- C10: a key that has a compiled pointer before a call of an entry point
has the same pointer after it, and the calls of `glob_to_re` and of
`dump_cache` leave the whole state as it is. -/
theorem C10_cache_only_grows {H : Type} (E : Engine H) (st : State H) (c : Call)
    (k : CString) (p : regex_ptr H) (h : map_get k st.cache = some (some p)) :
    map_get k (step E st c).cache = some (some p)
      ∧ (∀ glob, step E st (Call.glob_to_re glob) = st)
      ∧ step E st Call.dump_cache = st := by
  refine ⟨?_, fun _ => rfl, rfl⟩
  cases c with
  | re_match re str => exact re_match_keep E st re str k p h
  | glob_to_re glob => exact h
  | dump_cache => exact h

/-- Witness of C10: the pointer stored for `x` is still there after a match
against `/y/`. -/
theorem C10_cache_only_grows_witness :
    map_get "x".toList
        (step small_engine (run small_engine init [("/x/".toList, "x".toList)])
          (Call.re_match "/y/".toList "a".toList)).cache
      = some (some { serial := 0, block := "x".toList }) :=
  (C10_cache_only_grows small_engine
    (run small_engine init [("/x/".toList, "x".toList)])
    (Call.re_match "/y/".toList "a".toList) "x".toList
    { serial := 0, block := "x".toList } (by decide)).1

/-! ## Reading a string at its ends -/

theorem char_at_zero (s : CString) : char_at s 0 = s.head?.getD NUL := by
  cases s <;> simp [char_at]

theorem char_at_last (s : CString) :
    char_at s (s.length - 1) = s.getLast?.getD NUL := by
  rcases List.eq_nil_or_concat s with h | ⟨l, a, h⟩
  · subst h; simp [char_at]
  · subst h; simp [char_at, List.getD_eq_getElem?_getD]

theorem getD_NUL_eq_iff (o : Option Char) (c : Char) (hc : c ≠ NUL) :
    o.getD NUL = c ↔ o = some c := by
  cases o with
  | none => simp; exact fun h => hc h.symm
  | some a => simp

theorem bracket_ne_NUL : uvm_re_bracket_char ≠ NUL := by decide

theorem first_is_bracket (s : CString) :
    char_at s 0 = uvm_re_bracket_char ↔ s.head? = some '/' := by
  rw [char_at_zero]; exact getD_NUL_eq_iff _ _ bracket_ne_NUL

theorem last_is_bracket (s : CString) :
    char_at s (s.length - 1) = uvm_re_bracket_char ↔ s.getLast? = some '/' := by
  rw [char_at_last]; exact getD_NUL_eq_iff _ _ bracket_ne_NUL

/-! ## Glob translation -/

theorem glob_char_eq_table (c : Char) :
    glob_char c = (spec_table.lookup c).getD [c] := by
  unfold glob_char spec_table
  by_cases h1 : c = '*'
  · subst h1; rfl
  by_cases h2 : c = '+'
  · subst h2; rfl
  by_cases h3 : c = '.'
  · subst h3; rfl
  by_cases h4 : c = '?'
  · subst h4; rfl
  by_cases h5 : c = '['
  · subst h5; rfl
  by_cases h6 : c = ']'
  · subst h6; rfl
  by_cases h7 : c = '('
  · subst h7; rfl
  by_cases h8 : c = ')'
  · subst h8; rfl
  have e1 : (c == '*') = false := beq_eq_false_iff_ne.mpr h1
  have e2 : (c == '+') = false := beq_eq_false_iff_ne.mpr h2
  have e3 : (c == '.') = false := beq_eq_false_iff_ne.mpr h3
  have e4 : (c == '?') = false := beq_eq_false_iff_ne.mpr h4
  have e5 : (c == '[') = false := beq_eq_false_iff_ne.mpr h5
  have e6 : (c == ']') = false := beq_eq_false_iff_ne.mpr h6
  have e7 : (c == '(') = false := beq_eq_false_iff_ne.mpr h7
  have e8 : (c == ')') = false := beq_eq_false_iff_ne.mpr h8
  simp [List.lookup, h1, h2, h3, h4, h5, h6, h7, h8, e1, e2, e3, e4, e5, e6, e7, e8]

theorem glob_char_ne_nil (c : Char) : glob_char c ≠ [] := by
  unfold glob_char
  repeat (first | split | simp)

theorem glob_loop_eq (p temp_re : CString) :
    glob_loop p temp_re = temp_re ++ spec_T p := by
  induction p generalizing temp_re with
  | nil => simp [glob_loop, spec_T]
  | cons c p ih =>
    rw [glob_loop, ih, glob_char_eq_table]
    simp [spec_T]

theorem spec_T_ne_nil (g : CString) (hg : g ≠ []) : spec_T g ≠ [] := by
  cases g with
  | nil => exact absurd rfl hg
  | cons c p =>
    have h := glob_char_ne_nil c
    rw [glob_char_eq_table] at h
    simp [spec_T, h]

theorem degenerate_iff (g : CString) :
    (g.length = 0 ∨ (g.length = 1 ∧ char_at g 0 = uvm_re_bracket_char))
      ↔ (g = [] ∨ g = ['/']) := by
  rw [first_is_bracket]
  constructor
  · rintro (h | ⟨h1, h2⟩)
    · left; exact List.length_eq_zero.mp h
    · right
      match g, h1, h2 with
      | [a], _, h2 => simpa using h2
  · rintro (h | h)
    · subst h; simp
    · subst h; simp

/-! ## Lengths and checked reads -/

theorem to_int_of_lt (n : Nat) (h : n < 2147483648) : to_int n = (n : Int) := by
  unfold to_int
  have e : n % 4294967296 = n := Nat.mod_eq_of_lt (by omega)
  rw [e, if_pos h]

theorem to_int_le (n : Nat) : to_int n ≤ (n : Int) := by
  unfold to_int
  split <;> omega

theorem c_read_nat (s : CString) (i : Nat) (h : i ≤ s.length) :
    c_read s (i : Int) = some (char_at s i) := by
  unfold c_read
  rw [if_pos ⟨by omega, by omega⟩]
  simp

theorem c_read_zero (s : CString) : c_read s 0 = some (char_at s 0) :=
  c_read_nat s 0 (Nat.zero_le _)

theorem c_read_neg (s : CString) (i : Int) (h : i < 0) : c_read s i = none := by
  unfold c_read
  rw [if_neg (by omega)]

theorem size_t_sub_one (n : Nat) (h1 : 0 < n) : size_t_sub n 1 = n - 1 := by
  unfold size_t_sub
  rw [if_pos (show 1 ≤ n from h1)]

/-! ## The anchoring step -/

theorem spec_T_cons (c : Char) (g : CString) : spec_T (c :: g) = glob_char c ++ spec_T g := by
  rw [glob_char_eq_table]
  simp [spec_T]

theorem str_at_zero (s : CString) : str_at s 0 = some (char_at s 0) := by
  unfold str_at
  rw [if_pos (Nat.zero_le _)]

theorem str_at_last (s : CString) (h : 0 < s.length) :
    str_at s (size_t_sub s.length 1) = some (char_at s (s.length - 1)) := by
  rw [size_t_sub_one _ h]
  unfold str_at
  rw [if_pos (Nat.sub_le _ _)]

theorem glob_finish_val (T : CString) (hT : T ≠ []) :
    glob_finish T
      = some (uvm_re_bracket_char ::
          (if char_at (if char_at T 0 ≠ '^' then '^' :: T else T)
                ((if char_at T 0 ≠ '^' then '^' :: T else T).length - 1) ≠ '$' then
              (if char_at T 0 ≠ '^' then '^' :: T else T) ++ ['$']
            else (if char_at T 0 ≠ '^' then '^' :: T else T))
          ++ [uvm_re_bracket_char]) := by
  have hpos : 0 < T.length := List.length_pos.mpr hT
  have ht1 : 0 < (if char_at T 0 ≠ '^' then '^' :: T else T).length := by
    split
    · exact Nat.succ_pos _
    · exact hpos
  unfold glob_finish
  rw [str_at_zero, Option.some_bind]
  show (str_at (if char_at T 0 ≠ '^' then '^' :: T else T)
      (size_t_sub (if char_at T 0 ≠ '^' then '^' :: T else T).length 1)).bind _ = _
  rw [str_at_last _ ht1, Option.some_bind]

theorem glob_finish_in_bounds (T : CString) (hT : T ≠ []) :
    ∃ t, glob_finish T = some t :=
  ⟨_, glob_finish_val T hT⟩

theorem glob_finish_eq (T : CString) (hT : T ≠ []) :
    glob_finish T = some ('/' :: spec_A T ++ ['/']) := by
  have hlast : ∀ t : CString, (char_at t (t.length - 1) ≠ '$') ↔ ¬ t.getLast? = some '$' := by
    intro t
    rw [char_at_last]
    exact not_congr (getD_NUL_eq_iff _ _ (by decide))
  have hfirst : (char_at T 0 ≠ '^') ↔ ¬ T.head? = some '^' := by
    rw [char_at_zero]
    exact not_congr (getD_NUL_eq_iff _ _ (by decide))
  have hcons : ('^' :: T).getLast? = T.getLast? := by
    cases T with
    | nil => exact absurd rfl hT
    | cons a l => simp [List.getLast?_cons_cons]
  rw [glob_finish_val T hT]
  unfold spec_A
  simp only [hlast, hfirst, uvm_re_bracket_char]
  by_cases h1 : T.head? = some '^' <;> by_cases h2 : T.getLast? = some '$' <;>
    simp [h1, h2, hcons]

theorem glob_finish_bracketed (T t : CString) (hT : T ≠ []) (h : glob_finish T = some t) :
    t.length > 1 ∧ t.head? = some '/' ∧ t.getLast? = some '/' := by
  rw [glob_finish_eq T hT] at h
  simp only [Option.some.injEq] at h
  subst h
  refine ⟨by simp, rfl, ?_⟩
  rw [List.getLast?_concat]

/-! ## `glob_to_re` on globs whose length fits an `int` -/

theorem glob_to_re_short_eq (g : CString) (hlen : g.length < 2147483648) :
    glob_to_re (some g)
      = if g.length = 0 ∨ (g.length = 1 ∧ char_at g 0 = uvm_re_bracket_char) then
          some (some [])
        else if char_at g 0 = uvm_re_bracket_char
            ∧ char_at g (g.length - 1) = uvm_re_bracket_char then
          some (some g)
        else (glob_finish (glob_loop g [])).map some := by
  unfold glob_to_re
  simp only [to_int_of_lt _ hlen, c_read_zero, Option.some_bind]
  by_cases h0 : g.length = 0
  · simp [h0]
  · have hlast : c_read g ((g.length : Int) - 1) = some (char_at g (g.length - 1)) := by
      have e : (g.length : Int) - 1 = ((g.length - 1 : Nat) : Int) := by omega
      rw [e]
      exact c_read_nat g _ (by omega)
    have h0i : ¬ ((g.length : Int) = 0) := by omega
    simp only [h0i, h0, if_false, false_or, hlast, Option.some_bind]
    by_cases h1 : g.length = 1
    · have h1i : (g.length : Int) = 1 := by omega
      simp only [h1i, h1, if_true, true_and]
      by_cases hb : char_at g 0 = uvm_re_bracket_char
      · simp [hb]
      · simp [hb]
    · have h1i : ¬ ((g.length : Int) = 1) := by omega
      simp only [h1i, h1, if_false, false_and]
      by_cases hb : char_at g 0 = uvm_re_bracket_char
      · by_cases hl : char_at g (g.length - 1) = uvm_re_bracket_char
        · simp [hb, hl]
        · simp [hb, hl]
      · simp [hb]

theorem glob_to_re_translate_of_short (g : CString) (hlen : g.length < 2147483648)
    (h0 : g ≠ []) (h1 : g ≠ ['/'])
    (h2 : ¬ (g.head? = some '/' ∧ g.getLast? = some '/')) :
    glob_to_re (some g) = some (some ('/' :: spec_A (spec_T g) ++ ['/'])) := by
  have hd : ¬ (g.length = 0 ∨ (g.length = 1 ∧ char_at g 0 = uvm_re_bracket_char)) := by
    rw [degenerate_iff]; exact fun h => h.elim h0 h1
  have hw : ¬ (char_at g 0 = uvm_re_bracket_char
      ∧ char_at g (g.length - 1) = uvm_re_bracket_char) := by
    rw [first_is_bracket, last_is_bracket]; exact h2
  rw [glob_to_re_short_eq g hlen, if_neg hd, if_neg hw, glob_loop_eq, List.nil_append,
    glob_finish_eq _ (spec_T_ne_nil g h0)]
  rfl

theorem glob_to_re_bracketed_of_short (g : CString) (hlen : g.length < 2147483648)
    (h0 : g.length > 1) (h1 : g.head? = some '/') (h2 : g.getLast? = some '/') :
    glob_to_re (some g) = some (some g) := by
  have hd : ¬ (g.length = 0 ∨ (g.length = 1 ∧ char_at g 0 = uvm_re_bracket_char)) := by
    rintro (h | ⟨h, _⟩) <;> omega
  have hw : (char_at g 0 = uvm_re_bracket_char
      ∧ char_at g (g.length - 1) = uvm_re_bracket_char) := by
    rw [first_is_bracket, last_is_bracket]; exact ⟨h1, h2⟩
  rw [glob_to_re_short_eq g hlen, if_neg hd, if_pos hw]

theorem glob_to_re_cases (g : CString) :
    glob_to_re (some g) = none ∨ glob_to_re (some g) = some (some [])
      ∨ glob_to_re (some g) = some (some g)
      ∨ glob_to_re (some g) = (glob_finish (glob_loop g [])).map some := by
  unfold glob_to_re
  simp only [c_read_zero, Option.some_bind]
  cases hl : c_read g (to_int g.length - 1) with
  | none =>
    simp only [Option.none_bind]
    split_ifs <;> simp
  | some last =>
    simp only [Option.some_bind]
    split_ifs <;> simp

theorem glob_loop_ne_nil (g : CString) (hg : g ≠ []) : glob_loop g [] ≠ [] := by
  rw [glob_loop_eq, List.nil_append]
  exact spec_T_ne_nil g hg

theorem glob_to_re_nil : glob_to_re (some []) = some (some []) := by
  unfold glob_to_re
  have e : to_int ([] : CString).length = 0 := by decide
  simp only [e, if_true]

theorem glob_to_re_again (g t : CString) (h : glob_to_re (some g) = some (some t))
    (hlen : t.length < 2147483648) : glob_to_re (some t) = some (some t) := by
  by_cases hg : g = []
  · subst hg
    rw [glob_to_re_nil] at h
    simp only [Option.some.injEq] at h
    subst h
    exact glob_to_re_nil
  · rcases glob_to_re_cases g with c | c | c | c
    · rw [c] at h
      exact absurd h (by simp)
    · rw [c] at h
      simp only [Option.some.injEq] at h
      subst h
      exact glob_to_re_nil
    · rw [c] at h
      simp only [Option.some.injEq] at h
      subst h
      exact c
    · obtain ⟨u, hu⟩ := glob_finish_in_bounds _ (glob_loop_ne_nil g hg)
      rw [c, hu] at h
      simp only [Option.map_some', Option.some.injEq] at h
      subst h
      obtain ⟨a, b, d⟩ := glob_finish_bracketed _ _ (glob_loop_ne_nil g hg) hu
      exact glob_to_re_bracketed_of_short _ hlen a b d

theorem glob_to_re_result_of_short (g : CString) (hlen : g.length < 2147483648) :
    ∃ r, glob_to_re (some g) = some (some r) ∧ (r = [] ↔ (g = [] ∨ g = ['/'])) := by
  by_cases hd : g = [] ∨ g = ['/']
  · refine ⟨[], ?_, by simp [hd]⟩
    rcases hd with h | h <;> subst h <;> decide
  · by_cases hw : g.head? = some '/' ∧ g.getLast? = some '/'
    · have h1 : g.length > 1 := by
        match g, hd, hw with
        | [], hd, _ => simp at hd
        | [a], hd, hw => simp at hw; simp [hw] at hd
        | _ :: _ :: _, _, _ => simp
      refine ⟨g, glob_to_re_bracketed_of_short g hlen h1 hw.1 hw.2, ?_⟩
      simp only [hd, iff_false]
      exact fun h => hd (Or.inl h)
    · have hd2 := hd
      push_neg at hd2
      refine ⟨_, glob_to_re_translate_of_short g hlen hd2.1 hd2.2 hw, ?_⟩
      simp [hd]

theorem glob_to_re_examples :
    glob_to_re none = some none
      ∧ glob_to_re (some "".toList) = some (some "".toList)
      ∧ glob_to_re (some "/".toList) = some (some "".toList)
      ∧ glob_to_re (some "a*b".toList) = some (some "/^a.*b$/".toList)
      ∧ glob_to_re (some "file?.txt".toList) = some (some "/^file.\\.txt$/".toList)
      ∧ glob_to_re (some "/foo.*/".toList) = some (some "/foo.*/".toList)
      ∧ glob_to_re (some "//".toList) = some (some "//".toList)
      ∧ glob_to_re (some "^a$".toList) = some (some "/^a$/".toList) := by
  decide

theorem glob_to_re_in_bounds_of_short (g : CString) (hlen : g.length < 2147483648) :
    ∃ r, glob_to_re (some g) = some (some r) := by
  obtain ⟨r, hr, _⟩ := glob_to_re_result_of_short g hlen
  exact ⟨r, hr⟩

/-! ## `glob_to_re` on globs whose length does not fit an `int` -/

theorem glob_to_re_of_int_zero (g : CString) (h : to_int g.length = 0) :
    glob_to_re (some g) = some (some []) := by
  unfold glob_to_re
  simp only [h, if_true]

theorem glob_to_re_of_int_neg (g : CString) (hfirst : char_at g 0 = uvm_re_bracket_char)
    (hneg : to_int g.length < 0) : glob_to_re (some g) = none := by
  have h0 : ¬ (to_int g.length = 0) := by omega
  have h1 : ¬ (to_int g.length = 1) := by omega
  unfold glob_to_re
  simp only [h0, h1, if_false, c_read_zero, Option.some_bind, hfirst, if_true,
    c_read_neg g (to_int g.length - 1) (by omega), Option.none_bind]

/-! ## The text `re_match` looks up -/

theorem c_substr_inside (s : CString) (n : Nat) (h : n + 1 ≤ s.length) :
    c_substr s 1 (n : Int) = some ((s.drop 1).take n) := by
  unfold c_substr
  rw [if_pos ⟨by omega, by omega, by omega⟩]
  have e1 : (1 : Int).toNat = 1 := rfl
  have e2 : (n : Int).toNat = n := Int.toNat_natCast n
  rw [e1, e2, List.drop_append_of_le_length (by omega),
    List.take_append_of_le_length (by rw [List.length_drop]; omega)]

theorem strip_text_val (re : CString) :
    strip_text re
      = some (if to_int re.length > 1 ∧ char_at re 0 = uvm_re_bracket_char
            ∧ char_at re (to_int re.length - 1).toNat = uvm_re_bracket_char then
          (re.drop 1).take (to_int re.length - 2).toNat
        else re) := by
  unfold strip_text
  simp only [c_read_zero, Option.some_bind]
  by_cases h : to_int re.length > 1
  · have hle := to_int_le re.length
    obtain ⟨k, hk⟩ : ∃ k : Nat, to_int re.length = (k : Int) + 2 :=
      ⟨(to_int re.length - 2).toNat, by omega⟩
    have hk2 : k + 2 ≤ re.length := by omega
    have e1 : to_int re.length - 1 = ((k + 1 : Nat) : Int) := by omega
    have e2 : to_int re.length - 2 = ((k : Nat) : Int) := by omega
    simp only [h, if_true, true_and, e1, e2, c_read_nat re (k + 1) (by omega),
      Option.some_bind, c_substr_inside re k (by omega), Int.toNat_natCast]
    by_cases hb : char_at re 0 = uvm_re_bracket_char
    · by_cases hl : char_at re (k + 1) = uvm_re_bracket_char
      · simp [hb, hl]
      · simp [hb, hl]
    · simp [hb]
  · simp [h]

theorem strip_text_eq (re : CString) : strip_text re = some (strip re) := by
  unfold strip
  rw [strip_text_val]
  rfl

theorem strip_eq (re : CString) :
    strip re
      = if to_int re.length > 1 ∧ char_at re 0 = uvm_re_bracket_char
            ∧ char_at re (to_int re.length - 1).toNat = uvm_re_bracket_char then
          (re.drop 1).take (to_int re.length - 2).toNat
        else re := by
  unfold strip
  rw [strip_text_val]
  rfl

theorem strip_of_int_le_one (re : CString) (h : to_int re.length ≤ 1) : strip re = re := by
  rw [strip_eq, if_neg]
  rintro ⟨h1, _⟩
  omega

theorem strip_of_first_ne (re : CString) (h : char_at re 0 ≠ uvm_re_bracket_char) :
    strip re = re := by
  rw [strip_eq, if_neg]
  rintro ⟨_, h1, _⟩
  exact h h1

theorem strip_of_short (re : CString) (hlen : re.length < 2147483648) :
    strip re
      = if re.length > 1 ∧ re.head? = some '/' ∧ re.getLast? = some '/' then
          (re.drop 1).take (re.length - 2)
        else re := by
  have e1 : ((re.length : Int) - 1).toNat = re.length - 1 := by omega
  have e2 : ((re.length : Int) - 2).toNat = re.length - 2 := by omega
  have e3 : ((re.length : Int) > 1) ↔ re.length > 1 := by omega
  rw [strip_eq, to_int_of_lt _ hlen]
  simp only [e1, e2, e3, first_is_bracket, last_is_bracket]

theorem strip_bracketed_of_short (p : CString) (hlen : p.length + 2 < 2147483648) :
    strip ('/' :: p ++ ['/']) = p := by
  have h1 : ('/' :: p ++ ['/']).head? = some '/' := rfl
  have h2 : ('/' :: p ++ ['/']).getLast? = some '/' := List.getLast?_concat _
  have h3 : ('/' :: p ++ ['/']).length > 1 := by simp
  rw [strip_of_short _ (by simp; omega), if_pos ⟨h3, h1, h2⟩]
  simp

theorem strip_plain_of_short (p : CString) (hlen : p.length < 2147483648)
    (hp : ¬ (p.length > 1 ∧ p.head? = some '/' ∧ p.getLast? = some '/')) :
    strip p = p := by
  rw [strip_of_short _ hlen, if_neg hp]

theorem stripping_transparent_of_short {H : Type} (E : Engine H) (st : State H)
    (p s : CString) (hlen : p.length + 2 < 2147483648)
    (hp : ¬ (p.length > 1 ∧ p.head? = some '/' ∧ p.getLast? = some '/')) :
    strip ('/' :: p ++ ['/']) = p
      ∧ strip p = p
      ∧ (re_match E st ('/' :: p ++ ['/']) s).ret = (re_match E st p s).ret
      ∧ (∃ r, (re_match E st p s).ret = some r)
      ∧ (re_match E st ('/' :: p ++ ['/']) s).compiled = (re_match E st p s).compiled
      ∧ (re_match E st ('/' :: p ++ ['/']) s).st = (re_match E st p s).st := by
  have e1 := strip_bracketed_of_short p hlen
  have e2 := strip_plain_of_short p (by omega) hp
  have h := re_match_congr E st ('/' :: p ++ ['/']) p s (e1.trans e2.symm)
  exact ⟨e1, e2, h.1, re_match_ret_some E st p s, h.2.1, h.2.2⟩

theorem strip_in_bounds (re : CString)
    (hs : to_int re.length > 1 ∧ char_at re 0 = uvm_re_bracket_char
      ∧ char_at re (to_int re.length - 1).toNat = uvm_re_bracket_char) :
    0 ≤ to_int re.length - 2
      ∧ 1 + (to_int re.length - 2) ≤ (re.length : Int)
      ∧ strip re = (re.drop 1).take (to_int re.length - 2).toNat
      ∧ ((strip re).length : Int) = to_int re.length - 2 := by
  have hle := to_int_le re.length
  have hst : strip re = (re.drop 1).take (to_int re.length - 2).toNat := by
    rw [strip_eq, if_pos hs]
  refine ⟨by omega, by omega, hst, ?_⟩
  rw [hst, List.length_take, List.length_drop]
  omega

/-! ## Strings of one repeated ordinary character -/

theorem replicate_a_ne_single (n : Nat) : List.replicate n 'a' ≠ ['/'] := by
  intro h
  have h1 := congrArg List.head? h
  rw [List.head?_replicate] at h1
  split at h1
  · simp at h1
  · simp at h1

theorem replicate_a_first (n : Nat) : char_at (List.replicate n 'a') 0 ≠ uvm_re_bracket_char := by
  intro h
  rw [first_is_bracket, List.head?_replicate] at h
  split at h <;> simp at h

theorem spec_T_replicate_a (n : Nat) : spec_T (List.replicate n 'a') = List.replicate n 'a' := by
  induction n with
  | zero => rfl
  | succ k ih =>
    rw [List.replicate_succ, spec_T_cons, ih]
    rfl

theorem spec_A_replicate_a (n : Nat) (hn : 0 < n) :
    spec_A (List.replicate n 'a') = '^' :: (List.replicate n 'a' ++ ['$']) := by
  have hn0 : n ≠ 0 := by omega
  unfold spec_A
  rw [List.head?_replicate, List.getLast?_replicate]
  simp [hn0]

theorem glob_of_int_zero_length (n : Nat) (hn : 0 < n) (hz : to_int n = 0) :
    List.replicate n 'a' ≠ []
      ∧ List.replicate n 'a' ≠ ['/']
      ∧ ¬ ((List.replicate n 'a').head? = some '/'
            ∧ (List.replicate n 'a').getLast? = some '/')
      ∧ glob_to_re (some (List.replicate n 'a')) = some (some []) := by
  have hn0 : n ≠ 0 := by omega
  refine ⟨?_, replicate_a_ne_single n, ?_, ?_⟩
  · intro h
    have := congrArg List.length h
    rw [List.length_replicate] at this
    exact hn0 this
  · rw [List.head?_replicate]
    simp [hn0]
  · exact glob_to_re_of_int_zero _ (by rw [List.length_replicate]; exact hz)

theorem glob_bracket_first_of_int_neg (n : Nat) (hn : 0 < n) (hneg : to_int (n + 1) < 0) :
    '/' :: List.replicate n 'a' ≠ []
      ∧ '/' :: List.replicate n 'a' ≠ ['/']
      ∧ ¬ (('/' :: List.replicate n 'a').head? = some '/'
            ∧ ('/' :: List.replicate n 'a').getLast? = some '/')
      ∧ c_read ('/' :: List.replicate n 'a')
          (to_int ('/' :: List.replicate n 'a').length - 1) = none
      ∧ glob_to_re (some ('/' :: List.replicate n 'a')) = none := by
  have hn0 : n ≠ 0 := by omega
  have hlen : ('/' :: List.replicate n 'a').length = n + 1 := by
    rw [List.length_cons, List.length_replicate]
  refine ⟨List.cons_ne_nil _ _, ?_, ?_, ?_, ?_⟩
  · intro h
    have := congrArg List.length h
    rw [hlen] at this
    simp at this
    exact hn0 this
  · rintro ⟨_, h⟩
    obtain ⟨k, rfl⟩ : ∃ k, n = k + 1 := ⟨n - 1, by omega⟩
    rw [List.replicate_succ, List.getLast?_cons_cons, ← List.replicate_succ,
      List.getLast?_replicate] at h
    simp at h
  · rw [hlen]
    exact c_read_neg _ _ (by omega)
  · apply glob_to_re_of_int_neg
    · rfl
    · rw [hlen]
      exact hneg

theorem glob_translation_of_int_neg (n : Nat) (hn : 0 < n) (hlt : n < 2147483648)
    (hneg : to_int (n + 4) < 0) :
    glob_to_re (some (List.replicate n 'a'))
        = some (some ('/' :: '^' :: (List.replicate n 'a' ++ ['$', '/'])))
      ∧ glob_to_re (some ('/' :: '^' :: (List.replicate n 'a' ++ ['$', '/']))) = none := by
  have hn0 : n ≠ 0 := by omega
  constructor
  · rw [glob_to_re_translate_of_short _ (by rw [List.length_replicate]; exact hlt)
      (by
        intro h
        have := congrArg List.length h
        rw [List.length_replicate] at this
        exact hn0 this)
      (replicate_a_ne_single n)
      (by rw [List.head?_replicate]; simp [hn0]),
      spec_T_replicate_a, spec_A_replicate_a n hn]
    simp
  · have hlen : ('/' :: '^' :: (List.replicate n 'a' ++ ['$', '/'])).length = n + 4 := by
      simp
    apply glob_to_re_of_int_neg
    · rfl
    · rw [hlen]
      exact hneg

theorem bracketed_glob_of_int_neg (n : Nat) (hneg : to_int (n + 2) < 0) :
    ('/' :: (List.replicate n 'a' ++ ['/'])).length > 1
      ∧ ('/' :: (List.replicate n 'a' ++ ['/'])).head? = some '/'
      ∧ ('/' :: (List.replicate n 'a' ++ ['/'])).getLast? = some '/'
      ∧ glob_to_re (some ('/' :: (List.replicate n 'a' ++ ['/']))) = none := by
  have hlen : ('/' :: (List.replicate n 'a' ++ ['/'])).length = n + 2 := by simp
  refine ⟨by rw [hlen]; omega, rfl, ?_, ?_⟩
  · rw [← List.cons_append, List.getLast?_concat]
  · apply glob_to_re_of_int_neg
    · rfl
    · rw [hlen]
      exact hneg

theorem bracketed_pattern_not_stripped {H : Type} (E : Engine H) (n : Nat) (s : CString)
    (hbig : to_int (n + 2) ≤ 1) :
    ¬ ((List.replicate n 'a').length > 1 ∧ (List.replicate n 'a').head? = some '/'
          ∧ (List.replicate n 'a').getLast? = some '/')
      ∧ strip ('/' :: List.replicate n 'a' ++ ['/']) = '/' :: List.replicate n 'a' ++ ['/']
      ∧ strip (List.replicate n 'a') = List.replicate n 'a'
      ∧ (re_match E init ('/' :: List.replicate n 'a' ++ ['/']) s).st
          ≠ (re_match E init (List.replicate n 'a') s).st := by
  have hlen : ('/' :: List.replicate n 'a' ++ ['/']).length = n + 2 := by simp
  have e1 : strip ('/' :: List.replicate n 'a' ++ ['/'])
      = '/' :: List.replicate n 'a' ++ ['/'] :=
    strip_of_int_le_one _ (by rw [hlen]; exact hbig)
  have e2 : strip (List.replicate n 'a') = List.replicate n 'a' :=
    strip_of_first_ne _ (replicate_a_first n)
  refine ⟨?_, e1, e2, ?_⟩
  · rintro ⟨_, h, _⟩
    rw [List.head?_replicate] at h
    split at h <;> simp at h
  · intro heq
    have h1 : '/' :: List.replicate n 'a' ++ ['/']
        ∈ (re_match E init ('/' :: List.replicate n 'a' ++ ['/']) s).st.cache.map Prod.fst :=
      (re_match_keys E init _ s _).mpr (Or.inl e1.symm)
    rw [heq] at h1
    rcases (re_match_keys E init _ s _).mp h1 with h2 | h2
    · rw [e2] at h2
      have := congrArg List.length h2
      rw [hlen, List.length_replicate] at this
      omega
    · simp [init] at h2

/-! ## The claims on lengths that do not fit an `int` -/

/-- C1 (what the code does): a glob of `/` and 2^31 letters `a` is not empty,
is not the single bracket character and does not end with it, and the call
reads before its first character (`glob[len-1]` with `len` negative); a glob
of 2^32 letters `a` is given the empty string, not the translation. -/
theorem C1_translation_fails_on_long_glob :
    ('/' :: List.replicate 2147483648 'a' ≠ []
        ∧ '/' :: List.replicate 2147483648 'a' ≠ ['/']
        ∧ ¬ (('/' :: List.replicate 2147483648 'a').head? = some '/'
              ∧ ('/' :: List.replicate 2147483648 'a').getLast? = some '/')
        ∧ glob_to_re (some ('/' :: List.replicate 2147483648 'a')) = none)
      ∧ (List.replicate 4294967296 'a' ≠ []
        ∧ List.replicate 4294967296 'a' ≠ ['/']
        ∧ ¬ ((List.replicate 4294967296 'a').head? = some '/'
              ∧ (List.replicate 4294967296 'a').getLast? = some '/')
        ∧ glob_to_re (some (List.replicate 4294967296 'a')) = some (some [])) := by
  have h1 := glob_bracket_first_of_int_neg 2147483648 (by decide) (by decide)
  have h2 := glob_of_int_zero_length 4294967296 (by decide) (by decide)
  exact ⟨⟨h1.1, h1.2.1, h1.2.2.1, h1.2.2.2.2⟩, h2⟩

/-- C2 (what the code does): the glob of 2^31 - 3 letters `a` is translated
to a text of 2^31 + 1 characters, and translating that text reads before its
first character instead of returning it. -/
theorem C2_second_pass_fails_on_long_translation :
    glob_to_re (some (List.replicate 2147483645 'a'))
        = some (some ('/' :: '^' :: (List.replicate 2147483645 'a' ++ ['$', '/'])))
      ∧ glob_to_re (some ('/' :: '^' :: (List.replicate 2147483645 'a' ++ ['$', '/'])))
        = none :=
  glob_translation_of_int_neg 2147483645 (by decide) (by decide) (by decide)

/-- C5 (what the code does): for the text `p` of 2^31 - 2 letters `a`, which
is not bracketed, the pattern `/p/` has 2^31 characters and is not stripped:
the call with `/p/` looks up `/p/`, the call with `p` looks up `p`, and from
the empty cache the two calls leave different states. -/
theorem C5_long_pattern_not_stripped :
    ¬ ((List.replicate 2147483646 'a').length > 1
          ∧ (List.replicate 2147483646 'a').head? = some '/'
          ∧ (List.replicate 2147483646 'a').getLast? = some '/')
      ∧ strip ('/' :: List.replicate 2147483646 'a' ++ ['/'])
          = '/' :: List.replicate 2147483646 'a' ++ ['/']
      ∧ strip (List.replicate 2147483646 'a') = List.replicate 2147483646 'a'
      ∧ (re_match small_engine init ('/' :: List.replicate 2147483646 'a' ++ ['/'])
            "a".toList).st
          ≠ (re_match small_engine init (List.replicate 2147483646 'a') "a".toList).st :=
  bracketed_pattern_not_stripped small_engine 2147483646 "a".toList (by decide)

/-- C8 (what the code does): the string of `/`, 2^31 - 1 letters `a` and `/`
has more than one character and starts and ends with the bracket character,
and the call reads before its first character instead of returning it. -/
theorem C8_bracketed_long_glob_not_returned :
    ('/' :: (List.replicate 2147483647 'a' ++ ['/'])).length > 1
      ∧ ('/' :: (List.replicate 2147483647 'a' ++ ['/'])).head? = some '/'
      ∧ ('/' :: (List.replicate 2147483647 'a' ++ ['/'])).getLast? = some '/'
      ∧ glob_to_re (some ('/' :: (List.replicate 2147483647 'a' ++ ['/']))) = none :=
  bracketed_glob_of_int_neg 2147483647 (by decide)

/-- C9 (what the code does): the glob of 2^32 letters `a` is neither empty
nor the single bracket character, and the call returns the empty string. -/
theorem C9_long_glob_gives_empty_string :
    List.replicate 4294967296 'a' ≠ []
      ∧ List.replicate 4294967296 'a' ≠ ['/']
      ∧ glob_to_re (some (List.replicate 4294967296 'a')) = some (some []) := by
  have h := glob_of_int_zero_length 4294967296 (by decide) (by decide)
  exact ⟨h.1, h.2.1, h.2.2.2⟩

/-- C11 (what the code does): for the glob of `/` and 2^31 letters `a` the
variable `len` is -2147483647, the read `glob[len-1]` of line 172 is at index
-2147483648, before the first character, and the call has no defined
result. -/
theorem C11_read_before_long_glob :
    to_int (2147483648 + 1) - 1 = -2147483648
      ∧ ('/' :: List.replicate 2147483648 'a').length = 2147483648 + 1
      ∧ c_read ('/' :: List.replicate 2147483648 'a')
          (to_int ('/' :: List.replicate 2147483648 'a').length - 1) = none
      ∧ glob_to_re (some ('/' :: List.replicate 2147483648 'a')) = none := by
  have h := glob_bracket_first_of_int_neg 2147483648 (by decide) (by decide)
  refine ⟨by decide, ?_, h.2.2.2.1, h.2.2.2.2⟩
  rw [List.length_cons, List.length_replicate]

end uvm_re_cache
